import Mathlib

/-
  Verification of `src/docs/archive/update-openapi-security.py`.

  The script manipulates YAML document trees loaded by `yaml.safe_load`.
  We embed those trees as the inductive type `Yaml` below; Python `dict`s
  become association lists whose key order models Python's insertion order
  (assignment to an existing key keeps its position, assignment to a fresh
  key appends at the end).  Python exceptions (KeyError / TypeError /
  AttributeError) are modelled with `Except String`.  Membership tests and
  item access on values that are not mappings are modelled as errors; the
  exotic Python corner where `in` substring-matches a string value is not
  distinguished, as no behaviour of interest depends on it.
-/

set_option autoImplicit false

namespace UMIG

/-- A YAML document tree as produced by `yaml.safe_load`: strings, mappings
with string keys (in insertion order), sequences, and null. -/
inductive Yaml where
  | str (s : String)
  | map (entries : List (String × Yaml))
  | arr (items : List Yaml)
  | null


/-- A Python dictionary with string keys: an association list in insertion
order. -/
abbrev Dict := List (String × Yaml)

/-- First value stored under a key, if any (Python `d[k]` on a present key). -/
def lookup : Dict → String → Option Yaml
  | [], _ => none
  | (k, v) :: rest, key => if k = key then some v else lookup rest key

/-- Python `key in d` for a mapping. -/
def hasKey (d : Dict) (key : String) : Bool :=
  (lookup d key).isSome

/-- Python `d[key] = v`: overwrite in place if the key exists, else append. -/
def setKey : Dict → String → Yaml → Dict
  | [], key, v => [(key, v)]
  | (k, w) :: rest, key, v =>
      if k = key then (k, v) :: rest else (k, w) :: setKey rest key v

/-- Python `d.update(src)`: assign every entry of `src` into `d`, in order. -/
def dictUpdate : Dict → List (String × Yaml) → Dict
  | target, [] => target
  | target, (k, v) :: rest => dictUpdate (setKey target k v) rest

/-- Python subscript `v[key]`: `KeyError` when the key is missing, a type
error when `v` is not a mapping. -/
def getItem (v : Yaml) (key : String) : Except String Yaml :=
  match v with
  | .map d =>
      match lookup d key with
      | some x => .ok x
      | none => .error ("KeyError: " ++ key)
  | _ => .error ("TypeError: value is not subscriptable by " ++ key)

/-- Demand a mapping (Python `.items()` / membership tests / `dict.update`
arguments). -/
def asDict (v : Yaml) : Except String Dict :=
  match v with
  | .map d => .ok d
  | _ => .error "TypeError: expected a mapping"

/-- The `if key not in d: d[key] = \x7b\x7d` initialisation pattern used for
`components`, `components.schemas` and `components.responses`. -/
def ensureKey (d : Dict) (key : String) : Dict :=
  if hasKey d key then d else setKey d key (Yaml.map [])

/-- The multi-line changelog literal `new_version_info` of the script,
byte for byte. -/
def new_version_info : String :=
  "\n    **Version 2.10.0 - January 13, 2025:**\n    **Enterprise Security & Rate Limiting Enhancement:** Complete OpenAPI specification synchronization with enhanced API documentation.\n    **Security Features:** Added comprehensive rate limiting responses (HTTP 429), enterprise security headers (X-Frame-Options, X-XSS-Protection, CSP),\n    and RBAC integration documentation. **Error Handling:** Enhanced error schemas with SQL state mappings (23503→400, 23505→409),\n    detailed conflict resolution, and comprehensive validation error responses. **Performance SLA:** Documented response time targets\n    (<100ms to <200ms), throughput limits, and enterprise-grade performance characteristics. **Documentation Coverage:** 100% synchronization\n    with Applications, Environments, Teams, and other enhanced API documentation achieving 9.4/10 quality score.\n\n        "

/-- `openapi_data['info'].get('description', '')` followed by the string
concatenation requirement: absent key yields the empty default, a string
value is returned as is, any other value fails the `str + value`
concatenation. -/
def getDescription (info : Dict) : Except String String :=
  match lookup info "description" with
  | none => .ok ""
  | some (.str s) => .ok s
  | some _ => .error "TypeError: can only concatenate str to str"

/-- Lines 29-44 of the script: when `info` is present, stamp
`info['version'] = '2.10.0'` and prepend `new_version_info` to the
description. -/
def mergeInfo (doc : Dict) : Except String Dict :=
  match lookup doc "info" with
  | none => .ok doc
  | some (.map info) =>
      match getDescription (setKey info "version" (Yaml.str "2.10.0")) with
      | .error e => .error e
      | .ok descr =>
          .ok (setKey doc "info"
            (Yaml.map (setKey (setKey info "version" (Yaml.str "2.10.0")) "description"
              (Yaml.str (new_version_info ++ descr)))))
  | some _ => .error "TypeError: info value does not support item assignment"

/-- The loop `for name, value in src: target[name] = value`, where `target`
must be a mapping as soon as one assignment actually happens (Python only
raises on the first executed assignment). -/
def setItems : Yaml → List (String × Yaml) → Except String Yaml
  | target, [] => .ok target
  | .map t, (k, v) :: rest => setItems (Yaml.map (setKey t k v)) rest
  | _, _ :: _ => .error "TypeError: target does not support item assignment"

/-- Lines 50-66 of the script, one call per section key (`schemas`,
`responses`): create the section as an empty mapping when absent, read the
fragment's section with direct subscripts, and copy every fragment entry
into the section. -/
def mergeFragEntries (comps : Dict) (security_data : Yaml) (key : String) :
    Except String Dict :=
  match getItem security_data "components" with
  | .error e => .error e
  | .ok fc =>
      match getItem fc key with
      | .error e => .error e
      | .ok frag =>
          match asDict frag with
          | .error e => .error e
          | .ok fragEntries =>
              match getItem (Yaml.map (ensureKey comps key)) key with
              | .error e => .error e
              | .ok target =>
                  match setItems target fragEntries with
                  | .error e => .error e
                  | .ok merged => .ok (setKey (ensureKey comps key) key merged)

/-- Lines 68-72 of the script: only when the primary already has
`securitySchemes`, read the fragment's `securitySchemes` with direct
subscripts and `dict.update` the primary's mapping with it. -/
def mergeSecuritySchemes (comps : Dict) (security_data : Yaml) :
    Except String Dict :=
  if hasKey comps "securitySchemes" then
    match getItem security_data "components" with
    | .error e => .error e
    | .ok fc =>
        match getItem fc "securitySchemes" with
        | .error e => .error e
        | .ok enhanced =>
            match asDict enhanced with
            | .error e => .error e
            | .ok enhancedEntries =>
                match getItem (Yaml.map comps) "securitySchemes" with
                | .error e => .error e
                | .ok target =>
                    match asDict target with
                    | .error e => .error e
                    | .ok targetEntries =>
                        .ok (setKey comps "securitySchemes"
                          (Yaml.map (dictUpdate targetEntries enhancedEntries)))
  else .ok comps

/-- `update_openapi_with_security` (lines 21-74) on the two already-loaded
trees: info stamping, `components` initialisation, schema and response
merges, and the conditional `securitySchemes` shallow update. -/
def update_openapi_with_security (openapi_data security_data : Yaml) :
    Except String Yaml :=
  match asDict openapi_data with
  | .error e => .error e
  | .ok doc =>
      match mergeInfo doc with
      | .error e => .error e
      | .ok doc1 =>
          match getItem (Yaml.map (ensureKey doc1 "components")) "components" with
          | .error e => .error e
          | .ok compsVal =>
              match asDict compsVal with
              | .error e => .error e
              | .ok comps =>
                  match mergeFragEntries comps security_data "schemas" with
                  | .error e => .error e
                  | .ok comps =>
                      match mergeFragEntries comps security_data "responses" with
                      | .error e => .error e
                      | .ok comps =>
                          match mergeSecuritySchemes comps security_data with
                          | .error e => .error e
                          | .ok comps =>
                              .ok (Yaml.map (setKey (ensureKey doc1 "components")
                                "components" (Yaml.map comps)))

/-- `rate_limit_response` of the script. -/
def rate_limit_response : Yaml :=
  Yaml.map [("$ref", Yaml.str "#/components/responses/RateLimit")]

/-- `enhanced_400_response` of the script. -/
def enhanced_400_response : Yaml :=
  Yaml.map [("$ref", Yaml.str "#/components/responses/BadRequest")]

/-- `enhanced_401_response` of the script. -/
def enhanced_401_response : Yaml :=
  Yaml.map [("$ref", Yaml.str "#/components/responses/Unauthorized")]

/-- `enhanced_403_response` of the script. -/
def enhanced_403_response : Yaml :=
  Yaml.map [("$ref", Yaml.str "#/components/responses/Forbidden")]

/-- `enhanced_404_response` of the script. -/
def enhanced_404_response : Yaml :=
  Yaml.map [("$ref", Yaml.str "#/components/responses/NotFound")]

/-- `enhanced_409_response` of the script. -/
def enhanced_409_response : Yaml :=
  Yaml.map [("$ref", Yaml.str "#/components/responses/Conflict")]

/-- `enhanced_500_response` of the script. -/
def enhanced_500_response : Yaml :=
  Yaml.map [("$ref", Yaml.str "#/components/responses/InternalServerError")]

/-- ASCII lower-casing of one character (the fragment of `str.lower()` the
method keys exercise). -/
def lowerChar (c : Char) : Char :=
  if 65 ≤ c.toNat ∧ c.toNat ≤ 90 then Char.ofNat (c.toNat + 32) else c

/-- `method_name.lower()` of line 114, modelled for ASCII strings. -/
def strLower (s : String) : String :=
  String.mk (s.data.map lowerChar)

/-- The method whitelist of line 114. -/
def httpMethods : List String := ["get", "post", "put", "delete", "patch"]

/-- One conditional overwrite `if code in responses: responses[code] = ref`
(lines 120-136). -/
def enhanceCode (r : Dict) (code : String) (ref : Yaml) : Dict :=
  if hasKey r code then setKey r code ref else r

/-- The body of lines 117-136 on one `responses` mapping: always set `429`
first, then overwrite each of the six error codes that are present, in the
source's order 400, 401, 403, 404, 409, 500 (innermost first). -/
def enhanceResponses (resp : Dict) : Dict :=
  enhanceCode (enhanceCode (enhanceCode (enhanceCode (enhanceCode (enhanceCode
    (setKey resp "429" rate_limit_response)
    "400" enhanced_400_response)
    "401" enhanced_401_response)
    "403" enhanced_403_response)
    "404" enhanced_404_response)
    "409" enhanced_409_response)
    "500" enhanced_500_response

/-- Lines 115-136 on one operation mapping: untouched when it has no
`responses` key, otherwise its `responses` mapping is enhanced in place. -/
def enhanceOperation (operation : Dict) : Except String Dict :=
  match lookup operation "responses" with
  | none => .ok operation
  | some (.map resp) =>
      .ok (setKey operation "responses" (Yaml.map (enhanceResponses resp)))
  | some _ => .error "TypeError: responses value does not support item assignment"

/-- In-place transformation of every value of a mapping, in order; the first
failing entry aborts the walk (the Python `for` loop raises there). -/
def mapValuesE (f : String → Yaml → Except String Yaml) :
    List (String × Yaml) → Except String (List (String × Yaml))
  | [] => .ok []
  | (k, v) :: rest =>
      match f k v with
      | .error e => .error e
      | .ok v2 =>
          match mapValuesE f rest with
          | .error e => .error e
          | .ok rest2 => .ok ((k, v2) :: rest2)

/-- The body of lines 114-136 for one method entry: method keys
(lower-cased) in the whitelist have their operation enhanced, every other
entry is kept as is. -/
def enhanceEntry (method_name : String) (operationVal : Yaml) :
    Except String Yaml :=
  if strLower method_name ∈ httpMethods then
    match operationVal with
    | .map op =>
        match enhanceOperation op with
        | .error e => .error e
        | .ok op2 => .ok (Yaml.map op2)
    | _ => .error "TypeError: membership test on a non-mapping operation"
  else .ok operationVal

/-- The inner loop of line 113 over the method entries of one path object. -/
def enhanceMethods (path_obj : List (String × Yaml)) :
    Except String (List (String × Yaml)) :=
  mapValuesE enhanceEntry path_obj

/-- One path entry of the outer loop: `path_obj.items()` demands a
mapping. -/
def enhancePathObj (v : Yaml) : Except String Yaml :=
  match v with
  | .map path_obj =>
      match enhanceMethods path_obj with
      | .error e => .error e
      | .ok methods2 => .ok (Yaml.map methods2)
  | _ => .error "AttributeError: path object is not a mapping"

/-- The outer loop of line 112 over the path entries. -/
def enhancePaths (paths : List (String × Yaml)) :
    Except String (List (String × Yaml)) :=
  mapValuesE (fun _ v => enhancePathObj v) paths

/-- `add_rate_limiting_to_paths` (lines 76-141): a no-op without a `paths`
key, otherwise every operation under a whitelisted method that has a
`responses` mapping receives the fixed references. -/
def add_rate_limiting_to_paths (openapi_data : Yaml) : Except String Yaml :=
  match asDict openapi_data with
  | .error e => .error e
  | .ok doc =>
      match lookup doc "paths" with
      | none => .ok openapi_data
      | some (.map paths) =>
          match enhancePaths paths with
          | .error e => .error e
          | .ok paths2 => .ok (Yaml.map (setKey doc "paths" (Yaml.map paths2)))
      | some _ => .error "AttributeError: paths value is not a mapping"

/-- The try-block of `main` (lines 160-176) after both input files exist:
merge, then enhance paths; any exception escapes to the handler. -/
def runPipeline (openapi_data security_data : Yaml) : Except String Yaml :=
  match update_openapi_with_security openapi_data security_data with
  | .error e => .error e
  | .ok updated => add_rate_limiting_to_paths updated

/-- The process exit code produced by `main`'s try/except (lines 160-191):
0 on success, 1 when any exception reaches the top-level handler. -/
def mainExitCode (openapi_data security_data : Yaml) : Nat :=
  match runPipeline openapi_data security_data with
  | .ok _ => 0
  | .error _ => 1

/-- The six status-code/component-name pairs of lines 86-108 and 120-136. -/
def statusRefs : List (String × String) :=
  [("400", "BadRequest"), ("401", "Unauthorized"), ("403", "Forbidden"),
   ("404", "NotFound"), ("409", "Conflict"), ("500", "InternalServerError")]

/-- Concrete primary document: one path, a `get` operation with a
`responses` mapping (200/404/409 present), a non-method entry under the
path, and a `post` operation without `responses`. -/
def sampleDoc : Dict :=
  [("info", Yaml.map [("version", Yaml.str "1.0.0"),
                      ("description", Yaml.str "X")]),
   ("paths", Yaml.map
     [("/a", Yaml.map
        [("get", Yaml.map
           [("summary", Yaml.str "s"),
            ("responses", Yaml.map
              [("200", Yaml.map []), ("404", Yaml.map []),
               ("409", Yaml.map [])])]),
         ("x-extension", Yaml.str "keep"),
         ("post", Yaml.map [("summary", Yaml.str "no responses")])])])]

/-- Concrete primary document with `info`, `components.schemas` (holding a
name the fragment also defines, with a different definition) and
`components.securitySchemes`, but no `components.responses`. -/
def samplePrimary : Dict :=
  [("info", Yaml.map [("version", Yaml.str "1.0.0"),
                      ("description", Yaml.str "X")]),
   ("components", Yaml.map
     [("schemas", Yaml.map
        [("SecurityError", Yaml.map [("type", Yaml.str "string")])]),
      ("securitySchemes", Yaml.map
        [("oldAuth", Yaml.map []),
         ("basicAuth", Yaml.map [("type", Yaml.str "old")])])])]

/-- Concrete well-formed security fragment with all three component
sections. -/
def sampleFragment : Dict :=
  [("components", Yaml.map
     [("schemas", Yaml.map
        [("SecurityError", Yaml.map [("type", Yaml.str "object")])]),
      ("responses", Yaml.map
        [("RateLimit", Yaml.map [("description", Yaml.str "rl")]),
         ("NotFound", Yaml.map [("description", Yaml.str "nf")])]),
      ("securitySchemes", Yaml.map
        [("basicAuth", Yaml.map [("type", Yaml.str "http")])])])]

/-- Concrete document without a `paths` key and without `components`. -/
def noPathsDoc : Dict := [("openapi", Yaml.str "3.0.0")]

/-- Concrete primary whose `components` mapping has no `securitySchemes`. -/
def primaryNoSS : Dict :=
  [("components", Yaml.map [("schemas", Yaml.map [])])]

/-- Concrete fragment whose `components` lacks `responses`. -/
def badFragment : Dict := [("components", Yaml.map [("schemas", Yaml.map [])])]

/-- Concrete fragment with `schemas` and `responses` but no
`securitySchemes`. -/
def fragmentNoSS : Dict :=
  [("components", Yaml.map
     [("schemas", Yaml.map []), ("responses", Yaml.map [])])]

/-! ### Basic dictionary lemmas -/

theorem lookup_setKey_self (d : Dict) (k : String) (v : Yaml) :
    lookup (setKey d k v) k = some v := by
  induction d with
  | nil => simp [setKey, lookup]
  | cons head rest ih =>
      obtain ⟨k0, w⟩ := head
      by_cases h : k0 = k
      · subst h; simp [setKey, lookup]
      · simp [setKey, lookup, h, ih]

theorem lookup_setKey_ne (d : Dict) (k : String) (v : Yaml) {k' : String}
    (h : k' ≠ k) : lookup (setKey d k v) k' = lookup d k' := by
  induction d with
  | nil => simp [setKey, lookup, Ne.symm h]
  | cons head rest ih =>
      obtain ⟨k0, w⟩ := head
      by_cases h0 : k0 = k
      · subst h0; simp [setKey, lookup, Ne.symm h]
      · simp [setKey, lookup, h0, ih]

theorem hasKey_setKey_self (d : Dict) (k : String) (v : Yaml) :
    hasKey (setKey d k v) k = true := by
  simp [hasKey, lookup_setKey_self]

theorem hasKey_setKey_ne (d : Dict) (k : String) (v : Yaml) {k' : String}
    (h : k' ≠ k) : hasKey (setKey d k v) k' = hasKey d k' := by
  simp [hasKey, lookup_setKey_ne d k v h]

theorem lookup_eq_none_of_hasKey_false {d : Dict} {k : String}
    (h : hasKey d k = false) : lookup d k = none := by
  unfold hasKey at h
  cases hl : lookup d k
  · rfl
  · rw [hl] at h; simp at h

theorem hasKey_false_iff {d : Dict} {k : String} :
    hasKey d k = false ↔ lookup d k = none := by
  constructor
  · exact lookup_eq_none_of_hasKey_false
  · intro h; simp [hasKey, h]

theorem hasKey_true_of_lookup_some {d : Dict} {k : String} {v : Yaml}
    (h : lookup d k = some v) : hasKey d k = true := by
  simp [hasKey, h]

theorem hasKey_false_of_not_mem_keys {d : Dict} {k : String}
    (h : k ∉ d.map Prod.fst) : hasKey d k = false := by
  induction d with
  | nil => rfl
  | cons head rest ih =>
      obtain ⟨k0, w⟩ := head
      rw [List.map_cons, List.mem_cons] at h
      push_neg at h
      have hne : k0 ≠ k := fun e => h.1 e.symm
      simp only [hasKey, lookup, if_neg hne]
      exact ih h.2

/-! ### `dictUpdate` lemmas -/

theorem lookup_dictUpdate_of_hasKey_false (target : Dict) {src : Dict}
    {k : String} (h : hasKey src k = false) :
    lookup (dictUpdate target src) k = lookup target k := by
  induction src generalizing target with
  | nil => rfl
  | cons head rest ih =>
      obtain ⟨k0, v0⟩ := head
      have hne : k0 ≠ k := by
        intro e; subst e; simp [hasKey, lookup] at h
      have hrest : hasKey rest k = false := by
        simpa [hasKey, lookup, hne] using h
      show lookup (dictUpdate (setKey target k0 v0) rest) k = lookup target k
      rw [ih _ hrest, lookup_setKey_ne _ _ _ (Ne.symm hne)]

theorem lookup_dictUpdate_of_lookup_some (target : Dict) {src : Dict}
    {k : String} {v : Yaml} (hnod : (src.map Prod.fst).Nodup)
    (h : lookup src k = some v) :
    lookup (dictUpdate target src) k = some v := by
  induction src generalizing target with
  | nil => simp [lookup] at h
  | cons head rest ih =>
      obtain ⟨k0, v0⟩ := head
      rw [List.map_cons, List.nodup_cons] at hnod
      by_cases he : k0 = k
      · subst he
        have hv : v0 = v := by simpa [lookup] using h
        subst hv
        have hrest : hasKey rest k0 = false :=
          hasKey_false_of_not_mem_keys hnod.1
        show lookup (dictUpdate (setKey target k0 v0) rest) k0 = some v0
        rw [lookup_dictUpdate_of_hasKey_false _ hrest, lookup_setKey_self]
      · have h' : lookup rest k = some v := by simpa [lookup, he] using h
        show lookup (dictUpdate (setKey target k0 v0) rest) k = some v
        exact ih _ hnod.2 h'

/-! ### `setItems` and `ensureKey` lemmas -/

theorem setItems_map (t : Dict) (l : List (String × Yaml)) :
    setItems (Yaml.map t) l = .ok (Yaml.map (dictUpdate t l)) := by
  induction l generalizing t with
  | nil => rfl
  | cons head rest ih =>
      obtain ⟨k, v⟩ := head
      show setItems (Yaml.map (setKey t k v)) rest = _
      rw [ih]
      rfl

theorem setItems_ok_inv {target : Yaml} {l : List (String × Yaml)}
    {merged : Yaml} (hne : l ≠ []) (h : setItems target l = .ok merged) :
    ∃ t, target = Yaml.map t ∧ merged = Yaml.map (dictUpdate t l) := by
  cases l with
  | nil => exact absurd rfl hne
  | cons head rest =>
      cases target with
      | map t =>
          rw [setItems_map] at h
          exact ⟨t, rfl, by injection h with h'; exact h'.symm⟩
      | str s => exact absurd h (by simp [setItems])
      | arr items => exact absurd h (by simp [setItems])
      | null => exact absurd h (by simp [setItems])

theorem ensureKey_of_hasKey {d : Dict} {k : String} (h : hasKey d k = true) :
    ensureKey d k = d := by
  simp [ensureKey, h]

theorem ensureKey_of_hasKey_false {d : Dict} {k : String}
    (h : hasKey d k = false) : ensureKey d k = setKey d k (Yaml.map []) := by
  simp [ensureKey, h]

theorem lookup_ensureKey_ne (d : Dict) (k : String) {k' : String}
    (h : k' ≠ k) : lookup (ensureKey d k) k' = lookup d k' := by
  unfold ensureKey
  split
  · rfl
  · exact lookup_setKey_ne _ _ _ h

theorem lookup_ensureKey_isSome (d : Dict) (k : String) :
    (lookup (ensureKey d k) k).isSome := by
  unfold ensureKey
  split
  · assumption
  · rw [lookup_setKey_self]; rfl

/-! ### `getItem` / `asDict` lemmas -/

theorem getItem_map_ok {d : Dict} {k : String} {v : Yaml} :
    getItem (Yaml.map d) k = .ok v ↔ lookup d k = some v := by
  cases h : lookup d k <;> simp [getItem, h]

theorem asDict_ok_inv {v : Yaml} {d : Dict} (h : asDict v = .ok d) :
    v = Yaml.map d := by
  cases v <;> simp [asDict] at h
  rw [h]

/-! ### `mergeInfo` lemmas -/

theorem getDescription_setKey_version (info : Dict) :
    getDescription (setKey info "version" (Yaml.str "2.10.0")) =
      getDescription info := by
  unfold getDescription
  rw [lookup_setKey_ne _ _ _ (by decide)]

theorem mergeInfo_lookup_ne {doc doc' : Dict} {k : String}
    (h : mergeInfo doc = .ok doc') (hk : k ≠ "info") :
    lookup doc' k = lookup doc k := by
  unfold mergeInfo at h
  split at h
  · injection h with h'; rw [h']
  · split at h
    · exact Except.noConfusion h
    · injection h with h'; rw [← h', lookup_setKey_ne _ _ _ hk]
  · exact Except.noConfusion h

theorem mergeInfo_spec {doc info doc' : Dict}
    (hinfo : lookup doc "info" = some (Yaml.map info))
    (h : mergeInfo doc = .ok doc') :
    ∃ d0, getDescription info = Except.ok d0 ∧
      doc' = setKey doc "info"
        (Yaml.map (setKey (setKey info "version" (Yaml.str "2.10.0"))
          "description" (Yaml.str (new_version_info ++ d0)))) := by
  unfold mergeInfo at h
  rw [hinfo] at h
  dsimp only at h
  rw [getDescription_setKey_version] at h
  cases hd : getDescription info with
  | error e => rw [hd] at h; exact Except.noConfusion h
  | ok d0 =>
      rw [hd] at h
      dsimp only at h
      injection h with h'
      exact ⟨d0, rfl, h'.symm⟩

/-! ### `mergeFragEntries` lemmas -/

theorem mergeFragEntries_lookup_ne {comps comps' : Dict} {sec : Yaml}
    {key k : String} (h : mergeFragEntries comps sec key = .ok comps')
    (hk : k ≠ key) : lookup comps' k = lookup comps k := by
  unfold mergeFragEntries at h
  split at h
  · exact Except.noConfusion h
  split at h
  · exact Except.noConfusion h
  split at h
  · exact Except.noConfusion h
  split at h
  · exact Except.noConfusion h
  split at h
  · exact Except.noConfusion h
  injection h with h'
  rw [← h', lookup_setKey_ne _ _ _ hk, lookup_ensureKey_ne _ _ hk]

theorem mergeFragEntries_spec {comps comps' : Dict} {sd fc frag : Dict}
    {key : String} (hsd : lookup sd "components" = some (Yaml.map fc))
    (hfrag : lookup fc key = some (Yaml.map frag)) (hne : frag ≠ [])
    (h : mergeFragEntries comps (Yaml.map sd) key = .ok comps') :
    ∃ t, lookup (ensureKey comps key) key = some (Yaml.map t) ∧
      comps' = setKey (ensureKey comps key) key
        (Yaml.map (dictUpdate t frag)) := by
  unfold mergeFragEntries at h
  have h1 : getItem (Yaml.map sd) "components" = .ok (Yaml.map fc) := by
    simp [getItem, hsd]
  rw [h1] at h
  dsimp only at h
  have h2 : getItem (Yaml.map fc) key = .ok (Yaml.map frag) := by
    simp [getItem, hfrag]
  rw [h2] at h
  dsimp only at h
  simp only [asDict] at h
  cases htv : lookup (ensureKey comps key) key with
  | none =>
      have hs := lookup_ensureKey_isSome comps key
      rw [htv] at hs
      simp at hs
  | some targetVal =>
      have h4 : getItem (Yaml.map (ensureKey comps key)) key = .ok targetVal := by
        simp [getItem, htv]
      rw [h4] at h
      dsimp only at h
      cases hsi : setItems targetVal frag with
      | error e => rw [hsi] at h; exact Except.noConfusion h
      | ok merged =>
          rw [hsi] at h
          dsimp only at h
          obtain ⟨t, htm, hm⟩ := setItems_ok_inv hne hsi
          subst htm
          injection h with h'
          exact ⟨t, rfl, by rw [← h', hm]⟩

theorem mergeFragEntries_error {comps : Dict} {sd : Dict} {key : String}
    (hbad : lookup sd "components" = none ∨
      ∃ fc, lookup sd "components" = some (Yaml.map fc) ∧ lookup fc key = none) :
    ∃ msg, mergeFragEntries comps (Yaml.map sd) key = .error msg := by
  cases hres : mergeFragEntries comps (Yaml.map sd) key with
  | error e => exact ⟨e, rfl⟩
  | ok c =>
      exfalso
      rcases hbad with h | ⟨fc, h1, h2⟩
      · simp [mergeFragEntries, getItem, h] at hres
      · simp [mergeFragEntries, getItem, h1, h2] at hres

/-! ### `mergeSecuritySchemes` lemmas -/

theorem mergeSecuritySchemes_lookup_ne {comps comps' : Dict} {sec : Yaml}
    {k : String} (h : mergeSecuritySchemes comps sec = .ok comps')
    (hk : k ≠ "securitySchemes") : lookup comps' k = lookup comps k := by
  unfold mergeSecuritySchemes at h
  split at h
  · split at h
    · exact Except.noConfusion h
    split at h
    · exact Except.noConfusion h
    split at h
    · exact Except.noConfusion h
    split at h
    · exact Except.noConfusion h
    split at h
    · exact Except.noConfusion h
    injection h with h'
    rw [← h', lookup_setKey_ne _ _ _ hk]
  · injection h with h'; rw [h']

theorem mergeSecuritySchemes_of_hasKey_false {comps : Dict} {sec : Yaml}
    (h : hasKey comps "securitySchemes" = false) :
    mergeSecuritySchemes comps sec = .ok comps := by
  simp [mergeSecuritySchemes, h]

theorem mergeSecuritySchemes_spec {comps : Dict} {sd fc prim fss : Dict}
    (hprim : lookup comps "securitySchemes" = some (Yaml.map prim))
    (hsd : lookup sd "components" = some (Yaml.map fc))
    (hfss : lookup fc "securitySchemes" = some (Yaml.map fss)) :
    mergeSecuritySchemes comps (Yaml.map sd) =
      .ok (setKey comps "securitySchemes" (Yaml.map (dictUpdate prim fss))) := by
  have h1 : getItem (Yaml.map sd) "components" = .ok (Yaml.map fc) := by
    simp [getItem, hsd]
  have h2 : getItem (Yaml.map fc) "securitySchemes" = .ok (Yaml.map fss) := by
    simp [getItem, hfss]
  have h4 : getItem (Yaml.map comps) "securitySchemes" = .ok (Yaml.map prim) := by
    simp [getItem, hprim]
  simp [mergeSecuritySchemes, hasKey_true_of_lookup_some hprim, h1, h2, h4, asDict]

theorem mergeSecuritySchemes_error {comps : Dict} {sd fc : Dict}
    (hss : hasKey comps "securitySchemes" = true)
    (hsd : lookup sd "components" = some (Yaml.map fc))
    (hfss : lookup fc "securitySchemes" = none) :
    ∃ msg, mergeSecuritySchemes comps (Yaml.map sd) = .error msg := by
  cases hres : mergeSecuritySchemes comps (Yaml.map sd) with
  | error e => exact ⟨e, rfl⟩
  | ok c =>
      exfalso
      simp [mergeSecuritySchemes, hss, getItem, hsd, hfss] at hres

/-! ### Inversion of `update_openapi_with_security` -/

theorem update_ok_inv {openapi sec res : Yaml}
    (h : update_openapi_with_security openapi sec = .ok res) :
    ∃ doc doc1 comps0 comps1 comps2 comps3,
      asDict openapi = .ok doc ∧
      mergeInfo doc = .ok doc1 ∧
      lookup (ensureKey doc1 "components") "components" = some (Yaml.map comps0) ∧
      mergeFragEntries comps0 sec "schemas" = .ok comps1 ∧
      mergeFragEntries comps1 sec "responses" = .ok comps2 ∧
      mergeSecuritySchemes comps2 sec = .ok comps3 ∧
      res = Yaml.map (setKey (ensureKey doc1 "components") "components"
        (Yaml.map comps3)) := by
  unfold update_openapi_with_security at h
  split at h
  · exact Except.noConfusion h
  rename_i doc hdoc
  split at h
  · exact Except.noConfusion h
  rename_i doc1 hdoc1
  split at h
  · exact Except.noConfusion h
  rename_i compsVal hcompsVal
  split at h
  · exact Except.noConfusion h
  rename_i comps0 hcomps0
  split at h
  · exact Except.noConfusion h
  rename_i comps1 hcomps1
  split at h
  · exact Except.noConfusion h
  rename_i comps2 hcomps2
  split at h
  · exact Except.noConfusion h
  rename_i comps3 hcomps3
  injection h with h'
  have hv : compsVal = Yaml.map comps0 := asDict_ok_inv hcomps0
  subst hv
  exact ⟨doc, doc1, comps0, comps1, comps2, comps3, hdoc, hdoc1,
    getItem_map_ok.mp hcompsVal, hcomps1, hcomps2, hcomps3, h'.symm⟩

theorem update_error_of_not_ok {openapi sec : Yaml}
    (h : ∀ res, update_openapi_with_security openapi sec ≠ .ok res) :
    ∃ msg, update_openapi_with_security openapi sec = .error msg := by
  cases hres : update_openapi_with_security openapi sec with
  | error e => exact ⟨e, rfl⟩
  | ok r => exact absurd hres (h r)

theorem mainExitCode_one_of_update_error {openapi sec : Yaml} {msg : String}
    (h : update_openapi_with_security openapi sec = .error msg) :
    mainExitCode openapi sec = 1 := by
  simp [mainExitCode, runPipeline, h]

/-! ### `mapValuesE` lemmas -/

theorem mapValuesE_lookup_some {f : String → Yaml → Except String Yaml}
    {l l' : List (String × Yaml)} {k : String} {v : Yaml}
    (hE : mapValuesE f l = .ok l') (hv : lookup l k = some v) :
    ∃ v2, f k v = .ok v2 ∧ lookup l' k = some v2 := by
  induction l generalizing l' with
  | nil => simp [lookup] at hv
  | cons head rest ih =>
      obtain ⟨q, u⟩ := head
      unfold mapValuesE at hE
      split at hE
      · exact Except.noConfusion hE
      rename_i v2 hfv
      split at hE
      · exact Except.noConfusion hE
      rename_i rest2 hrest
      injection hE with hE'
      subst hE'
      by_cases hq : q = k
      · subst hq
        have huv : u = v := by simpa [lookup] using hv
        subst huv
        exact ⟨v2, hfv, by simp [lookup]⟩
      · have hv' : lookup rest k = some v := by simpa [lookup, hq] using hv
        obtain ⟨v2', hf', hl'⟩ := ih hrest hv'
        exact ⟨v2', hf', by simpa [lookup, hq] using hl'⟩

theorem mapValuesE_lookup_none {f : String → Yaml → Except String Yaml}
    {l l' : List (String × Yaml)} {k : String}
    (hE : mapValuesE f l = .ok l') (hv : lookup l k = none) :
    lookup l' k = none := by
  induction l generalizing l' with
  | nil =>
      unfold mapValuesE at hE
      injection hE with hE'
      subst hE'
      rfl
  | cons head rest ih =>
      obtain ⟨q, u⟩ := head
      unfold mapValuesE at hE
      split at hE
      · exact Except.noConfusion hE
      rename_i v2 hfv
      split at hE
      · exact Except.noConfusion hE
      rename_i rest2 hrest
      injection hE with hE'
      subst hE'
      have hq : q ≠ k := by
        intro e; subst e; simp [lookup] at hv
      have hv' : lookup rest k = none := by simpa [lookup, hq] using hv
      simpa [lookup, hq] using ih hrest hv'

/-! ### Path-enhancer lemmas -/

theorem enhanceEntry_miss {m : String} {v : Yaml}
    (hm : strLower m ∉ httpMethods) : enhanceEntry m v = .ok v := by
  unfold enhanceEntry
  rw [if_neg hm]

theorem enhanceEntry_hit_inv {m : String} {v v2 : Yaml}
    (hm : strLower m ∈ httpMethods) (h : enhanceEntry m v = .ok v2) :
    ∃ op op2, v = Yaml.map op ∧ enhanceOperation op = .ok op2 ∧
      v2 = Yaml.map op2 := by
  unfold enhanceEntry at h
  rw [if_pos hm] at h
  cases v with
  | map op =>
      dsimp only at h
      cases hop : enhanceOperation op with
      | error e => rw [hop] at h; exact Except.noConfusion h
      | ok op2 =>
          rw [hop] at h
          dsimp only at h
          injection h with h'
          exact ⟨op, op2, rfl, hop, h'.symm⟩
  | str s => exact Except.noConfusion h
  | arr items => exact Except.noConfusion h
  | null => exact Except.noConfusion h

theorem enhanceMethods_lookup_miss {po po' : List (String × Yaml)} {m : String}
    (hE : enhanceMethods po = .ok po') (hm : strLower m ∉ httpMethods) :
    lookup po' m = lookup po m := by
  cases hv : lookup po m with
  | none => exact mapValuesE_lookup_none hE hv
  | some v =>
      obtain ⟨v2, hf, hl⟩ := mapValuesE_lookup_some hE hv
      rw [enhanceEntry_miss hm] at hf
      injection hf with hf'
      rw [hl, hf']

theorem enhancePathObj_ok_inv {v w : Yaml} (h : enhancePathObj v = .ok w) :
    ∃ po po2, v = Yaml.map po ∧ enhanceMethods po = .ok po2 ∧
      w = Yaml.map po2 := by
  cases v with
  | map po =>
      unfold enhancePathObj at h
      dsimp only at h
      cases hM : enhanceMethods po with
      | error e => rw [hM] at h; exact Except.noConfusion h
      | ok po2 =>
          rw [hM] at h
          dsimp only at h
          injection h with h'
          exact ⟨po, po2, rfl, hM, h'.symm⟩
  | str s => exact Except.noConfusion h
  | arr items => exact Except.noConfusion h
  | null => exact Except.noConfusion h

theorem enhanceOperation_of_no_responses {op : Dict}
    (h : lookup op "responses" = none) : enhanceOperation op = .ok op := by
  simp [enhanceOperation, h]

theorem enhanceOperation_of_responses {op resp : Dict}
    (h : lookup op "responses" = some (Yaml.map resp)) :
    enhanceOperation op =
      .ok (setKey op "responses" (Yaml.map (enhanceResponses resp))) := by
  simp [enhanceOperation, h]

theorem add_rate_no_paths {doc : Dict} (h : lookup doc "paths" = none) :
    add_rate_limiting_to_paths (Yaml.map doc) = .ok (Yaml.map doc) := by
  simp [add_rate_limiting_to_paths, asDict, h]

theorem add_rate_ok_inv {doc : Dict} {ps : List (String × Yaml)} {y : Yaml}
    (hps : lookup doc "paths" = some (Yaml.map ps))
    (h : add_rate_limiting_to_paths (Yaml.map doc) = .ok y) :
    ∃ ps2, enhancePaths ps = .ok ps2 ∧
      y = Yaml.map (setKey doc "paths" (Yaml.map ps2)) := by
  unfold add_rate_limiting_to_paths at h
  simp only [asDict] at h
  rw [hps] at h
  dsimp only at h
  cases hE : enhancePaths ps with
  | error e => rw [hE] at h; exact Except.noConfusion h
  | ok ps2 =>
      rw [hE] at h
      dsimp only at h
      injection h with h'
      exact ⟨ps2, rfl, h'.symm⟩

/-- The common inversion for an operation reached through
`paths → path object → whitelisted method → responses`: under a successful
run its `responses` mapping is rewritten by `enhanceResponses`. -/
theorem enhancer_chain {doc : Dict} {y : Yaml} {ps po op resp : Dict}
    {p m : String}
    (h : add_rate_limiting_to_paths (Yaml.map doc) = .ok y)
    (hps : lookup doc "paths" = some (Yaml.map ps))
    (hpo : lookup ps p = some (Yaml.map po))
    (hop : lookup po m = some (Yaml.map op))
    (hm : strLower m ∈ httpMethods)
    (hresp : lookup op "responses" = some (Yaml.map resp)) :
    ∃ doc' ps' po', y = Yaml.map doc' ∧
      lookup doc' "paths" = some (Yaml.map ps') ∧
      lookup ps' p = some (Yaml.map po') ∧
      enhanceMethods po = .ok po' ∧
      lookup po' m = some (Yaml.map
        (setKey op "responses" (Yaml.map (enhanceResponses resp)))) := by
  obtain ⟨ps2, hE, hy⟩ := add_rate_ok_inv hps h
  obtain ⟨w, hfw, hl1⟩ := mapValuesE_lookup_some hE hpo
  obtain ⟨po0, po2, hpo0, hM, hw⟩ := enhancePathObj_ok_inv hfw
  injection hpo0 with hpo0'
  subst hpo0'
  subst hw
  obtain ⟨v2, hf2, hl2⟩ := mapValuesE_lookup_some hM hop
  obtain ⟨op0, op2, hop0, hOp, hv2⟩ := enhanceEntry_hit_inv hm hf2
  injection hop0 with hop0'
  subst hop0'
  subst hv2
  rw [enhanceOperation_of_responses hresp] at hOp
  injection hOp with hOp'
  subst hOp'
  exact ⟨setKey doc "paths" (Yaml.map ps2), ps2, po2, hy,
    lookup_setKey_self _ _ _, hl1, hM, hl2⟩

/-! ### `enhanceCode` and `enhanceResponses` lemmas -/

theorem lookup_enhanceCode_ne {r : Dict} {c : String} {ref : Yaml} {k : String}
    (h : k ≠ c) : lookup (enhanceCode r c ref) k = lookup r k := by
  unfold enhanceCode
  split
  · exact lookup_setKey_ne _ _ _ h
  · rfl

theorem lookup_enhanceCode_self (r : Dict) (c : String) (ref : Yaml) :
    lookup (enhanceCode r c ref) c =
      if hasKey r c then some ref else lookup r c := by
  unfold enhanceCode
  split
  · exact lookup_setKey_self _ _ _
  · rfl

theorem hasKey_enhanceCode (r : Dict) (c : String) (ref : Yaml) (k : String) :
    hasKey (enhanceCode r c ref) k = hasKey r k := by
  unfold enhanceCode
  split
  · rename_i hc
    by_cases hk : k = c
    · subst hk; rw [hasKey_setKey_self, hc]
    · exact hasKey_setKey_ne _ _ _ hk
  · rfl

/-- Full characterization of one enhanced `responses` mapping: `429` is the
fixed rate-limit reference, each of the six error codes is overwritten only
when present, and every other key is untouched. -/
theorem lookup_enhanceResponses (resp : Dict) (k : String) :
    lookup (enhanceResponses resp) k =
      if k = "429" then some rate_limit_response
      else if k = "400" then
        (if hasKey resp "400" then some enhanced_400_response
         else lookup resp "400")
      else if k = "401" then
        (if hasKey resp "401" then some enhanced_401_response
         else lookup resp "401")
      else if k = "403" then
        (if hasKey resp "403" then some enhanced_403_response
         else lookup resp "403")
      else if k = "404" then
        (if hasKey resp "404" then some enhanced_404_response
         else lookup resp "404")
      else if k = "409" then
        (if hasKey resp "409" then some enhanced_409_response
         else lookup resp "409")
      else if k = "500" then
        (if hasKey resp "500" then some enhanced_500_response
         else lookup resp "500")
      else lookup resp k := by
  unfold enhanceResponses
  by_cases h429 : k = "429"
  · subst h429
    simp [lookup_enhanceCode_ne, lookup_setKey_self]
  by_cases h400 : k = "400"
  · subst h400
    simp [lookup_enhanceCode_ne, lookup_enhanceCode_self, hasKey_enhanceCode,
      hasKey_setKey_ne, lookup_setKey_ne]
  by_cases h401 : k = "401"
  · subst h401
    simp [lookup_enhanceCode_ne, lookup_enhanceCode_self, hasKey_enhanceCode,
      hasKey_setKey_ne, lookup_setKey_ne]
  by_cases h403 : k = "403"
  · subst h403
    simp [lookup_enhanceCode_ne, lookup_enhanceCode_self, hasKey_enhanceCode,
      hasKey_setKey_ne, lookup_setKey_ne]
  by_cases h404 : k = "404"
  · subst h404
    simp [lookup_enhanceCode_ne, lookup_enhanceCode_self, hasKey_enhanceCode,
      hasKey_setKey_ne, lookup_setKey_ne]
  by_cases h409 : k = "409"
  · subst h409
    simp [lookup_enhanceCode_ne, lookup_enhanceCode_self, hasKey_enhanceCode,
      hasKey_setKey_ne, lookup_setKey_ne]
  by_cases h500 : k = "500"
  · subst h500
    simp [lookup_enhanceCode_ne, lookup_enhanceCode_self, hasKey_enhanceCode,
      hasKey_setKey_ne, lookup_setKey_ne]
  simp [lookup_enhanceCode_ne, lookup_setKey_ne, h429, h400, h401, h403,
    h404, h409, h500]

/-! ### Claim C1 -/

/-- C1: for every path entry and every method key whose lowercased name is
one of get/post/put/delete/patch, if the operation mapping has a
`responses` key then after `add_rate_limiting_to_paths` the responses
mapping maps "429" to exactly the fixed rate-limit reference, whether or
not a "429" entry existed before. -/
theorem rate_limit_429_always_set {doc : Dict} {y : Yaml}
    {ps po op resp : Dict} {p m : String}
    (hrun : add_rate_limiting_to_paths (Yaml.map doc) = .ok y)
    (hps : lookup doc "paths" = some (Yaml.map ps))
    (hpo : lookup ps p = some (Yaml.map po))
    (hop : lookup po m = some (Yaml.map op))
    (hm : strLower m ∈ httpMethods)
    (hresp : lookup op "responses" = some (Yaml.map resp)) :
    ∃ doc' ps' po' op' resp', y = Yaml.map doc' ∧
      lookup doc' "paths" = some (Yaml.map ps') ∧
      lookup ps' p = some (Yaml.map po') ∧
      lookup po' m = some (Yaml.map op') ∧
      lookup op' "responses" = some (Yaml.map resp') ∧
      lookup resp' "429" = some (Yaml.map
        [("$ref", Yaml.str "#/components/responses/RateLimit")]) := by
  obtain ⟨doc', ps', po', hy, h1, h2, hM, h3⟩ :=
    enhancer_chain hrun hps hpo hop hm hresp
  refine ⟨doc', ps', po', _, enhanceResponses resp, hy, h1, h2, h3,
    lookup_setKey_self _ _ _, ?_⟩
  rw [lookup_enhanceResponses]
  simp [rate_limit_response]

theorem rate_limit_429_always_set_witness :
    (strLower "get" ∈ httpMethods) ∧
    ∃ y, add_rate_limiting_to_paths (Yaml.map sampleDoc) = .ok y ∧
      ∃ doc' ps' po' op' resp', y = Yaml.map doc' ∧
        lookup doc' "paths" = some (Yaml.map ps') ∧
        lookup ps' "/a" = some (Yaml.map po') ∧
        lookup po' "get" = some (Yaml.map op') ∧
        lookup op' "responses" = some (Yaml.map resp') ∧
        lookup resp' "429" = some (Yaml.map
          [("$ref", Yaml.str "#/components/responses/RateLimit")]) :=
  ⟨by decide, _, rfl,
    @rate_limit_429_always_set sampleDoc _ _ _ _ _ "/a" "get"
      rfl rfl rfl rfl (by decide) rfl⟩

/-! ### Claim C2 -/

/-- C2: each of the six status codes 400/401/403/404/409/500 that is
present in an operation's responses before enhancement is overwritten with
the corresponding fixed named reference, and each that is absent before
stays absent after. -/
theorem error_refs_overwritten_iff_present {doc : Dict} {y : Yaml}
    {ps po op resp : Dict} {p m : String} {c name : String}
    (hrun : add_rate_limiting_to_paths (Yaml.map doc) = .ok y)
    (hps : lookup doc "paths" = some (Yaml.map ps))
    (hpo : lookup ps p = some (Yaml.map po))
    (hop : lookup po m = some (Yaml.map op))
    (hm : strLower m ∈ httpMethods)
    (hresp : lookup op "responses" = some (Yaml.map resp))
    (hcode : (c, name) ∈ statusRefs) :
    ∃ doc' ps' po' op' resp', y = Yaml.map doc' ∧
      lookup doc' "paths" = some (Yaml.map ps') ∧
      lookup ps' p = some (Yaml.map po') ∧
      lookup po' m = some (Yaml.map op') ∧
      lookup op' "responses" = some (Yaml.map resp') ∧
      (hasKey resp c = true → lookup resp' c = some (Yaml.map
        [("$ref", Yaml.str ("#/components/responses/" ++ name))])) ∧
      (hasKey resp c = false → hasKey resp' c = false) := by
  obtain ⟨doc', ps', po', hy, h1, h2, hM, h3⟩ :=
    enhancer_chain hrun hps hpo hop hm hresp
  refine ⟨doc', ps', po', _, enhanceResponses resp, hy, h1, h2, h3,
    lookup_setKey_self _ _ _, ?_, ?_⟩
  · intro hk
    simp [statusRefs] at hcode
    rcases hcode with ⟨rfl, rfl⟩ | ⟨rfl, rfl⟩ | ⟨rfl, rfl⟩ | ⟨rfl, rfl⟩ |
      ⟨rfl, rfl⟩ | ⟨rfl, rfl⟩ <;>
      rw [lookup_enhanceResponses] <;>
      simp [hk, enhanced_400_response, enhanced_401_response,
        enhanced_403_response, enhanced_404_response, enhanced_409_response,
        enhanced_500_response]
  · intro hk
    rw [hasKey_false_iff, lookup_enhanceResponses]
    simp [statusRefs] at hcode
    rcases hcode with ⟨rfl, rfl⟩ | ⟨rfl, rfl⟩ | ⟨rfl, rfl⟩ | ⟨rfl, rfl⟩ |
      ⟨rfl, rfl⟩ | ⟨rfl, rfl⟩ <;>
      simp [hk, lookup_eq_none_of_hasKey_false hk]

theorem error_refs_overwritten_iff_present_witness :
    (strLower "get" ∈ httpMethods) ∧
    (("404", "NotFound") ∈ statusRefs) ∧
    ∃ y, add_rate_limiting_to_paths (Yaml.map sampleDoc) = .ok y ∧
      ∃ doc' ps' po' op' resp', y = Yaml.map doc' ∧
        lookup doc' "paths" = some (Yaml.map ps') ∧
        lookup ps' "/a" = some (Yaml.map po') ∧
        lookup po' "get" = some (Yaml.map op') ∧
        lookup op' "responses" = some (Yaml.map resp') ∧
        (hasKey [("200", Yaml.map []), ("404", Yaml.map []),
            ("409", Yaml.map [])] "404" = true →
          lookup resp' "404" = some (Yaml.map
            [("$ref", Yaml.str ("#/components/responses/" ++ "NotFound"))])) ∧
        (hasKey [("200", Yaml.map []), ("404", Yaml.map []),
            ("409", Yaml.map [])] "404" = false →
          hasKey resp' "404" = false) :=
  ⟨by decide, by decide, _, rfl,
    @error_refs_overwritten_iff_present sampleDoc _ _ _ _ _ "/a" "get"
      "404" "NotFound" rfl rfl rfl rfl (by decide) rfl (by decide)⟩

/-! ### Claim C6 -/

/-- C6: without a `paths` key the path enhancer returns its input unchanged
(a no-op, not an error), and an operation under a whitelisted method that
has no `responses` key is left entirely unmodified. -/
theorem no_paths_noop_and_no_responses_untouched :
    (∀ doc : Dict, lookup doc "paths" = none →
      add_rate_limiting_to_paths (Yaml.map doc) = .ok (Yaml.map doc)) ∧
    (∀ (doc : Dict) (y : Yaml) (ps po op : Dict) (p m : String),
      add_rate_limiting_to_paths (Yaml.map doc) = .ok y →
      lookup doc "paths" = some (Yaml.map ps) →
      lookup ps p = some (Yaml.map po) →
      lookup po m = some (Yaml.map op) →
      strLower m ∈ httpMethods →
      lookup op "responses" = none →
      ∃ doc' ps' po', y = Yaml.map doc' ∧
        lookup doc' "paths" = some (Yaml.map ps') ∧
        lookup ps' p = some (Yaml.map po') ∧
        lookup po' m = some (Yaml.map op)) := by
  constructor
  · exact fun doc h => add_rate_no_paths h
  · intro doc y ps po op p m hrun hps hpo hop hm hresp
    obtain ⟨ps2, hE, hy⟩ := add_rate_ok_inv hps hrun
    obtain ⟨w, hfw, hl1⟩ := mapValuesE_lookup_some hE hpo
    obtain ⟨po0, po2, hpo0, hM, hw⟩ := enhancePathObj_ok_inv hfw
    injection hpo0 with hpo0'
    subst hpo0'
    subst hw
    obtain ⟨v2, hf2, hl2⟩ := mapValuesE_lookup_some hM hop
    obtain ⟨op0, op2, hop0, hOp, hv2⟩ := enhanceEntry_hit_inv hm hf2
    injection hop0 with hop0'
    subst hop0'
    subst hv2
    rw [enhanceOperation_of_no_responses hresp] at hOp
    injection hOp with hOp'
    subst hOp'
    exact ⟨setKey doc "paths" (Yaml.map ps2), ps2, po2, hy,
      lookup_setKey_self _ _ _, hl1, hl2⟩

theorem no_paths_noop_and_no_responses_untouched_witness :
    (add_rate_limiting_to_paths (Yaml.map noPathsDoc) =
      .ok (Yaml.map noPathsDoc)) ∧
    (∃ y, add_rate_limiting_to_paths (Yaml.map sampleDoc) = .ok y ∧
      ∃ doc' ps' po', y = Yaml.map doc' ∧
        lookup doc' "paths" = some (Yaml.map ps') ∧
        lookup ps' "/a" = some (Yaml.map po') ∧
        lookup po' "post" = some (Yaml.map
          [("summary", Yaml.str "no responses")])) :=
  ⟨no_paths_noop_and_no_responses_untouched.1 noPathsDoc rfl,
    _, rfl, no_paths_noop_and_no_responses_untouched.2
      sampleDoc _ _ _ _ "/a" "post" rfl rfl rfl rfl (by decide) rfl⟩

/-! ### Claim C10 -/

/-- C10: for a modified operation, every key other than `responses` keeps
its value; inside the responses mapping every key outside the seven fixed
codes keeps its value; and entries under a path whose key is not a
whitelisted method name are unchanged. -/
theorem enhancer_frame_conditions {doc : Dict} {y : Yaml}
    {ps po op resp : Dict} {p m : String}
    (hrun : add_rate_limiting_to_paths (Yaml.map doc) = .ok y)
    (hps : lookup doc "paths" = some (Yaml.map ps))
    (hpo : lookup ps p = some (Yaml.map po))
    (hop : lookup po m = some (Yaml.map op))
    (hm : strLower m ∈ httpMethods)
    (hresp : lookup op "responses" = some (Yaml.map resp)) :
    ∃ doc' ps' po' op' resp', y = Yaml.map doc' ∧
      lookup doc' "paths" = some (Yaml.map ps') ∧
      lookup ps' p = some (Yaml.map po') ∧
      lookup po' m = some (Yaml.map op') ∧
      (∀ k, k ≠ "responses" → lookup op' k = lookup op k) ∧
      lookup op' "responses" = some (Yaml.map resp') ∧
      (∀ c, c ∉ (["429", "400", "401", "403", "404", "409", "500"] :
          List String) → lookup resp' c = lookup resp c) ∧
      (∀ m', strLower m' ∉ httpMethods → lookup po' m' = lookup po m') := by
  obtain ⟨doc', ps', po', hy, h1, h2, hM, h3⟩ :=
    enhancer_chain hrun hps hpo hop hm hresp
  refine ⟨doc', ps', po', _, enhanceResponses resp, hy, h1, h2, h3,
    ?_, lookup_setKey_self _ _ _, ?_, ?_⟩
  · intro k hk
    exact lookup_setKey_ne _ _ _ hk
  · intro c hc
    rw [lookup_enhanceResponses]
    simp only [List.mem_cons, List.mem_singleton, not_or] at hc
    obtain ⟨n1, n2, n3, n4, n5, n6, n7⟩ := hc
    simp [n1, n2, n3, n4, n5, n6, n7]
  · intro m' hm'
    exact enhanceMethods_lookup_miss hM hm'

theorem enhancer_frame_conditions_witness :
    (strLower "get" ∈ httpMethods) ∧
    ∃ y, add_rate_limiting_to_paths (Yaml.map sampleDoc) = .ok y ∧
      ∃ doc' ps' po' op' resp', y = Yaml.map doc' ∧
        lookup doc' "paths" = some (Yaml.map ps') ∧
        lookup ps' "/a" = some (Yaml.map po') ∧
        lookup po' "get" = some (Yaml.map op') ∧
        (∀ k, k ≠ "responses" → lookup op' k =
          lookup [("summary", Yaml.str "s"),
            ("responses", Yaml.map [("200", Yaml.map []),
              ("404", Yaml.map []), ("409", Yaml.map [])])] k) ∧
        lookup op' "responses" = some (Yaml.map resp') ∧
        (∀ c, c ∉ (["429", "400", "401", "403", "404", "409", "500"] :
            List String) → lookup resp' c =
          lookup [("200", Yaml.map []), ("404", Yaml.map []),
            ("409", Yaml.map [])] c) ∧
        (∀ m', strLower m' ∉ httpMethods → lookup po' m' =
          lookup [("get", Yaml.map [("summary", Yaml.str "s"),
              ("responses", Yaml.map [("200", Yaml.map []),
                ("404", Yaml.map []), ("409", Yaml.map [])])]),
            ("x-extension", Yaml.str "keep"),
            ("post", Yaml.map [("summary", Yaml.str "no responses")])] m') :=
  ⟨by decide, _, rfl,
    @enhancer_frame_conditions sampleDoc _ _ _ _ _ "/a" "get"
      rfl rfl rfl rfl (by decide) rfl⟩

/-! ### The merged `info` section -/

/-- Shared inversion for the `info` section of a successful merge: the
version is stamped and the changelog is prepended to the description. -/
theorem update_info_spec {doc : Dict} {sec : Yaml} {doc' : Dict} {info : Dict}
    (hrun : update_openapi_with_security (Yaml.map doc) sec =
      .ok (Yaml.map doc'))
    (hinfo : lookup doc "info" = some (Yaml.map info)) :
    ∃ d0, getDescription info = Except.ok d0 ∧
      lookup doc' "info" = some (Yaml.map
        (setKey (setKey info "version" (Yaml.str "2.10.0")) "description"
          (Yaml.str (new_version_info ++ d0)))) := by
  obtain ⟨doc0, doc1, comps0, comps1, comps2, comps3, hdoc, hmi, hc0, hm1,
    hm2, hm3, hres⟩ := update_ok_inv hrun
  have hd : Yaml.map doc = Yaml.map doc0 := asDict_ok_inv hdoc
  injection hd with hd'
  subst hd'
  obtain ⟨d0, hd0, hdoc1⟩ := mergeInfo_spec hinfo hmi
  injection hres with hres'
  refine ⟨d0, hd0, ?_⟩
  rw [hres', lookup_setKey_ne _ _ _ (by decide),
    lookup_ensureKey_ne _ _ (by decide), hdoc1, lookup_setKey_self]

/-! ### Claim C3 -/

/-- C3: when the primary document has an `info` mapping, a successful merge
stamps `info.version` to the literal "2.10.0" and sets `info.description`
to the fixed changelog block immediately followed by the original
description text unchanged. -/
theorem version_stamped_and_changelog_prepended {doc : Dict} {sec : Yaml}
    {doc' : Dict} {info : Dict}
    (hrun : update_openapi_with_security (Yaml.map doc) sec =
      .ok (Yaml.map doc'))
    (hinfo : lookup doc "info" = some (Yaml.map info)) :
    ∃ info' d0, lookup doc' "info" = some (Yaml.map info') ∧
      getDescription info = Except.ok d0 ∧
      lookup info' "version" = some (Yaml.str "2.10.0") ∧
      lookup info' "description" =
        some (Yaml.str (new_version_info ++ d0)) := by
  obtain ⟨d0, hd0, hl⟩ := update_info_spec hrun hinfo
  refine ⟨_, d0, hl, hd0, ?_, lookup_setKey_self _ _ _⟩
  rw [lookup_setKey_ne _ _ _ (by decide), lookup_setKey_self]

theorem version_stamped_and_changelog_prepended_witness :
    ∃ doc', update_openapi_with_security (Yaml.map samplePrimary)
      (Yaml.map sampleFragment) = .ok (Yaml.map doc') ∧
    ∃ info' d0, lookup doc' "info" = some (Yaml.map info') ∧
      getDescription [("version", Yaml.str "1.0.0"),
        ("description", Yaml.str "X")] = Except.ok d0 ∧
      lookup info' "version" = some (Yaml.str "2.10.0") ∧
      lookup info' "description" =
        some (Yaml.str (new_version_info ++ d0)) :=
  ⟨_, rfl, @version_stamped_and_changelog_prepended samplePrimary
    (Yaml.map sampleFragment) _ _ rfl rfl⟩

/-! ### Claim C4 -/

/-- C4: every name defined in the fragment's `components.schemas`
(respectively `components.responses`) ends up in the primary's
corresponding section mapped to exactly the fragment's definition — a full
per-entry replacement, with the section created first when absent. -/
theorem fragment_defs_override_primary {doc sd doc' : Dict} {fc fs fr : Dict}
    (hrun : update_openapi_with_security (Yaml.map doc) (Yaml.map sd) =
      .ok (Yaml.map doc'))
    (hfc : lookup sd "components" = some (Yaml.map fc))
    (hfs : lookup fc "schemas" = some (Yaml.map fs))
    (hfr : lookup fc "responses" = some (Yaml.map fr))
    (hnods : (fs.map Prod.fst).Nodup)
    (hnodr : (fr.map Prod.fst).Nodup) :
    ∃ comps', lookup doc' "components" = some (Yaml.map comps') ∧
      (∀ n d, lookup fs n = some d →
        ∃ s', lookup comps' "schemas" = some (Yaml.map s') ∧
          lookup s' n = some d) ∧
      (∀ n d, lookup fr n = some d →
        ∃ r', lookup comps' "responses" = some (Yaml.map r') ∧
          lookup r' n = some d) := by
  obtain ⟨doc0, doc1, comps0, comps1, comps2, comps3, hdoc, hmi, hc0, hm1,
    hm2, hm3, hres⟩ := update_ok_inv hrun
  injection hres with hres'
  refine ⟨comps3, by rw [hres', lookup_setKey_self], ?_, ?_⟩
  · intro n d hn
    have hne : fs ≠ [] := by
      intro he; subst he; simp [lookup] at hn
    obtain ⟨t, ht, hcomps1⟩ := mergeFragEntries_spec hfc hfs hne hm1
    have hs1 : lookup comps1 "schemas" =
        some (Yaml.map (dictUpdate t fs)) := by
      rw [hcomps1, lookup_setKey_self]
    have hs2 : lookup comps2 "schemas" = lookup comps1 "schemas" :=
      mergeFragEntries_lookup_ne hm2 (by decide)
    have hs3 : lookup comps3 "schemas" = lookup comps2 "schemas" :=
      mergeSecuritySchemes_lookup_ne hm3 (by decide)
    refine ⟨dictUpdate t fs, by rw [hs3, hs2, hs1], ?_⟩
    exact lookup_dictUpdate_of_lookup_some t hnods hn
  · intro n d hn
    have hne : fr ≠ [] := by
      intro he; subst he; simp [lookup] at hn
    obtain ⟨t, ht, hcomps2⟩ := mergeFragEntries_spec hfc hfr hne hm2
    have hs2 : lookup comps2 "responses" =
        some (Yaml.map (dictUpdate t fr)) := by
      rw [hcomps2, lookup_setKey_self]
    have hs3 : lookup comps3 "responses" = lookup comps2 "responses" :=
      mergeSecuritySchemes_lookup_ne hm3 (by decide)
    refine ⟨dictUpdate t fr, by rw [hs3, hs2], ?_⟩
    exact lookup_dictUpdate_of_lookup_some t hnodr hn

theorem fragment_defs_override_primary_witness :
    ∃ doc', update_openapi_with_security (Yaml.map samplePrimary)
      (Yaml.map sampleFragment) = .ok (Yaml.map doc') ∧
    ∃ comps', lookup doc' "components" = some (Yaml.map comps') ∧
      (∀ n d, lookup [("SecurityError",
          Yaml.map [("type", Yaml.str "object")])] n = some d →
        ∃ s', lookup comps' "schemas" = some (Yaml.map s') ∧
          lookup s' n = some d) ∧
      (∀ n d, lookup [("RateLimit",
            Yaml.map [("description", Yaml.str "rl")]),
          ("NotFound", Yaml.map [("description", Yaml.str "nf")])] n =
            some d →
        ∃ r', lookup comps' "responses" = some (Yaml.map r') ∧
          lookup r' n = some d) :=
  ⟨_, rfl, @fragment_defs_override_primary samplePrimary sampleFragment
    _ _ _ _ rfl rfl rfl rfl (by decide) (by decide)⟩

theorem hasKey_congr {a b : Dict} {k : String}
    (h : lookup a k = lookup b k) : hasKey a k = hasKey b k := by
  simp [hasKey, h]

/-! ### Claim C5 -/

/-- C5: the merge never creates `components.securitySchemes`: absent before
means absent after (whether `components` itself existed or not); when
present, fragment keys overwrite and every other pre-existing key keeps its
original value (shallow top-level update only). -/
theorem securitySchemes_shallow_update_no_creation :
    (∀ (doc : Dict) (sec : Yaml) (doc' : Dict),
      update_openapi_with_security (Yaml.map doc) sec = .ok (Yaml.map doc') →
      lookup doc "components" = none →
      ∃ comps', lookup doc' "components" = some (Yaml.map comps') ∧
        hasKey comps' "securitySchemes" = false) ∧
    (∀ (doc : Dict) (sec : Yaml) (doc' comps : Dict),
      update_openapi_with_security (Yaml.map doc) sec = .ok (Yaml.map doc') →
      lookup doc "components" = some (Yaml.map comps) →
      hasKey comps "securitySchemes" = false →
      ∃ comps', lookup doc' "components" = some (Yaml.map comps') ∧
        hasKey comps' "securitySchemes" = false) ∧
    (∀ (doc sd doc' comps prim fc fss : Dict),
      update_openapi_with_security (Yaml.map doc) (Yaml.map sd) =
        .ok (Yaml.map doc') →
      lookup doc "components" = some (Yaml.map comps) →
      lookup comps "securitySchemes" = some (Yaml.map prim) →
      lookup sd "components" = some (Yaml.map fc) →
      lookup fc "securitySchemes" = some (Yaml.map fss) →
      (fss.map Prod.fst).Nodup →
      ∃ comps' ss', lookup doc' "components" = some (Yaml.map comps') ∧
        lookup comps' "securitySchemes" = some (Yaml.map ss') ∧
        (∀ k v, lookup fss k = some v → lookup ss' k = some v) ∧
        (∀ k, hasKey fss k = false → lookup ss' k = lookup prim k)) := by
  refine ⟨?_, ?_, ?_⟩
  · intro doc sec doc' hrun hnone
    obtain ⟨doc0, doc1, comps0, comps1, comps2, comps3, hdoc, hmi, hc0, hm1,
      hm2, hm3, hres⟩ := update_ok_inv hrun
    have hd : Yaml.map doc = Yaml.map doc0 := asDict_ok_inv hdoc
    injection hd with hd'
    subst hd'
    injection hres with hres'
    have h1 : lookup doc1 "components" = none := by
      rw [mergeInfo_lookup_ne hmi (by decide)]; exact hnone
    rw [ensureKey_of_hasKey_false (hasKey_false_iff.mpr h1),
      lookup_setKey_self] at hc0
    injection hc0 with hc0'
    injection hc0' with hc0''
    have hk0 : hasKey comps0 "securitySchemes" = false := by
      rw [← hc0'']; rfl
    have hk1 : hasKey comps1 "securitySchemes" = false := by
      rw [hasKey_congr (mergeFragEntries_lookup_ne hm1 (by decide))]
      exact hk0
    have hk2 : hasKey comps2 "securitySchemes" = false := by
      rw [hasKey_congr (mergeFragEntries_lookup_ne hm2 (by decide))]
      exact hk1
    rw [@mergeSecuritySchemes_of_hasKey_false comps2 sec hk2] at hm3
    injection hm3 with hm3'
    refine ⟨comps3, by rw [hres', lookup_setKey_self], ?_⟩
    rw [← hm3']
    exact hk2
  · intro doc sec doc' comps hrun hcomps hssf
    obtain ⟨doc0, doc1, comps0, comps1, comps2, comps3, hdoc, hmi, hc0, hm1,
      hm2, hm3, hres⟩ := update_ok_inv hrun
    have hd : Yaml.map doc = Yaml.map doc0 := asDict_ok_inv hdoc
    injection hd with hd'
    subst hd'
    injection hres with hres'
    have h1 : lookup doc1 "components" = some (Yaml.map comps) := by
      rw [mergeInfo_lookup_ne hmi (by decide)]; exact hcomps
    rw [ensureKey_of_hasKey (hasKey_true_of_lookup_some h1), h1] at hc0
    injection hc0 with hc0'
    injection hc0' with hc0''
    subst hc0''
    have hk1 : hasKey comps1 "securitySchemes" = false := by
      rw [hasKey_congr (mergeFragEntries_lookup_ne hm1 (by decide))]
      exact hssf
    have hk2 : hasKey comps2 "securitySchemes" = false := by
      rw [hasKey_congr (mergeFragEntries_lookup_ne hm2 (by decide))]
      exact hk1
    rw [@mergeSecuritySchemes_of_hasKey_false comps2 sec hk2] at hm3
    injection hm3 with hm3'
    refine ⟨comps3, by rw [hres', lookup_setKey_self], ?_⟩
    rw [← hm3']
    exact hk2
  · intro doc sd doc' comps prim fc fss hrun hcomps hprim hfc hfss hnod
    obtain ⟨doc0, doc1, comps0, comps1, comps2, comps3, hdoc, hmi, hc0, hm1,
      hm2, hm3, hres⟩ := update_ok_inv hrun
    have hd : Yaml.map doc = Yaml.map doc0 := asDict_ok_inv hdoc
    injection hd with hd'
    subst hd'
    injection hres with hres'
    have h1 : lookup doc1 "components" = some (Yaml.map comps) := by
      rw [mergeInfo_lookup_ne hmi (by decide)]; exact hcomps
    rw [ensureKey_of_hasKey (hasKey_true_of_lookup_some h1), h1] at hc0
    injection hc0 with hc0'
    injection hc0' with hc0''
    subst hc0''
    have hp1 : lookup comps1 "securitySchemes" = some (Yaml.map prim) := by
      rw [mergeFragEntries_lookup_ne hm1 (by decide)]; exact hprim
    have hp2 : lookup comps2 "securitySchemes" = some (Yaml.map prim) := by
      rw [mergeFragEntries_lookup_ne hm2 (by decide)]; exact hp1
    rw [mergeSecuritySchemes_spec hp2 hfc hfss] at hm3
    injection hm3 with hm3'
    refine ⟨comps3, dictUpdate prim fss,
      by rw [hres', lookup_setKey_self], ?_, ?_, ?_⟩
    · rw [← hm3', lookup_setKey_self]
    · intro k v hk
      exact lookup_dictUpdate_of_lookup_some prim hnod hk
    · intro k hk
      exact lookup_dictUpdate_of_hasKey_false prim hk

theorem securitySchemes_shallow_update_no_creation_witness :
    (∃ doc', update_openapi_with_security (Yaml.map noPathsDoc)
        (Yaml.map sampleFragment) = .ok (Yaml.map doc') ∧
      ∃ comps', lookup doc' "components" = some (Yaml.map comps') ∧
        hasKey comps' "securitySchemes" = false) ∧
    (∃ doc', update_openapi_with_security (Yaml.map primaryNoSS)
        (Yaml.map sampleFragment) = .ok (Yaml.map doc') ∧
      ∃ comps', lookup doc' "components" = some (Yaml.map comps') ∧
        hasKey comps' "securitySchemes" = false) ∧
    (∃ doc', update_openapi_with_security (Yaml.map samplePrimary)
        (Yaml.map sampleFragment) = .ok (Yaml.map doc') ∧
      ∃ comps' ss', lookup doc' "components" = some (Yaml.map comps') ∧
        lookup comps' "securitySchemes" = some (Yaml.map ss') ∧
        (∀ k v, lookup [("basicAuth", Yaml.map [("type", Yaml.str "http")])]
            k = some v → lookup ss' k = some v) ∧
        (∀ k, hasKey [("basicAuth", Yaml.map [("type", Yaml.str "http")])]
            k = false → lookup ss' k = lookup
          [("oldAuth", Yaml.map []),
           ("basicAuth", Yaml.map [("type", Yaml.str "old")])] k)) :=
  ⟨⟨_, rfl, securitySchemes_shallow_update_no_creation.1 noPathsDoc
      (Yaml.map sampleFragment) _ rfl rfl⟩,
   ⟨_, rfl, securitySchemes_shallow_update_no_creation.2.1 primaryNoSS
      (Yaml.map sampleFragment) _ _ rfl rfl rfl⟩,
   ⟨_, rfl, securitySchemes_shallow_update_no_creation.2.2 samplePrimary
      sampleFragment _ _ _ _ _ rfl rfl rfl rfl rfl (by decide)⟩⟩

/-! ### Claim C7 -/

/-- C7: a fragment lacking `components`, `components.schemas` or
`components.responses` makes the merge fail with a key-lookup error rather
than produce a merged document, and the top-level handler turns that
failure into exit code 1. -/
theorem missing_fragment_keys_fail_exit1 {openapi : Yaml} {sd : Dict}
    (hbad : lookup sd "components" = none ∨
      ∃ fc, lookup sd "components" = some (Yaml.map fc) ∧
        (lookup fc "schemas" = none ∨ lookup fc "responses" = none)) :
    (∃ msg, update_openapi_with_security openapi (Yaml.map sd) =
      .error msg) ∧
    mainExitCode openapi (Yaml.map sd) = 1 := by
  have hnotok : ∀ res,
      update_openapi_with_security openapi (Yaml.map sd) ≠ .ok res := by
    intro res hres
    obtain ⟨doc0, doc1, comps0, comps1, comps2, comps3, _, _, _, hm1, hm2,
      _, _⟩ := update_ok_inv hres
    rcases hbad with h | ⟨fc, h1, h2⟩
    · obtain ⟨msg, he⟩ := @mergeFragEntries_error comps0 sd "schemas"
        (Or.inl h)
      rw [he] at hm1
      exact Except.noConfusion hm1
    · rcases h2 with h2 | h2
      · obtain ⟨msg, he⟩ := @mergeFragEntries_error comps0 sd "schemas"
          (Or.inr ⟨fc, h1, h2⟩)
        rw [he] at hm1
        exact Except.noConfusion hm1
      · obtain ⟨msg, he⟩ := @mergeFragEntries_error comps1 sd "responses"
          (Or.inr ⟨fc, h1, h2⟩)
        rw [he] at hm2
        exact Except.noConfusion hm2
  obtain ⟨msg, he⟩ := update_error_of_not_ok hnotok
  exact ⟨⟨msg, he⟩, mainExitCode_one_of_update_error he⟩

theorem missing_fragment_keys_fail_exit1_witness :
    (lookup badFragment "components" = none ∨
      ∃ fc, lookup badFragment "components" = some (Yaml.map fc) ∧
        (lookup fc "schemas" = none ∨ lookup fc "responses" = none)) ∧
    (∃ msg, update_openapi_with_security (Yaml.map samplePrimary)
      (Yaml.map badFragment) = .error msg) ∧
    mainExitCode (Yaml.map samplePrimary) (Yaml.map badFragment) = 1 :=
  have hb : lookup badFragment "components" = none ∨
      ∃ fc, lookup badFragment "components" = some (Yaml.map fc) ∧
        (lookup fc "schemas" = none ∨ lookup fc "responses" = none) :=
    Or.inr ⟨[("schemas", Yaml.map [])], rfl, Or.inr rfl⟩
  ⟨hb, missing_fragment_keys_fail_exit1 hb⟩

/-! ### Claim C8 -/

/-- C8: the merge step is not idempotent: applied twice in sequence to a
document with an `info` mapping, the final description is the fixed
changelog block concatenated twice in front of the original description,
and the version is re-stamped to the same literal. -/
theorem merge_twice_not_idempotent {doc : Dict} {sec sec2 : Yaml}
    {docA docB : Dict} {info : Dict}
    (h1 : update_openapi_with_security (Yaml.map doc) sec =
      .ok (Yaml.map docA))
    (h2 : update_openapi_with_security (Yaml.map docA) sec2 =
      .ok (Yaml.map docB))
    (hinfo : lookup doc "info" = some (Yaml.map info)) :
    ∃ info2 d0, getDescription info = Except.ok d0 ∧
      lookup docB "info" = some (Yaml.map info2) ∧
      lookup info2 "version" = some (Yaml.str "2.10.0") ∧
      lookup info2 "description" =
        some (Yaml.str (new_version_info ++ (new_version_info ++ d0))) := by
  obtain ⟨d0, hd0, hlA⟩ := update_info_spec h1 hinfo
  obtain ⟨d1, hd1, hlB⟩ := update_info_spec h2 hlA
  have hgd : getDescription (setKey
      (setKey info "version" (Yaml.str "2.10.0")) "description"
      (Yaml.str (new_version_info ++ d0))) =
      Except.ok (new_version_info ++ d0) := by
    unfold getDescription
    rw [lookup_setKey_self]
  rw [hgd] at hd1
  injection hd1 with hd1'
  subst hd1'
  refine ⟨_, d0, hd0, hlB, ?_, lookup_setKey_self _ _ _⟩
  rw [lookup_setKey_ne _ _ _ (by decide), lookup_setKey_self]

theorem merge_twice_not_idempotent_witness :
    ∃ docA docB, update_openapi_with_security (Yaml.map samplePrimary)
        (Yaml.map sampleFragment) = .ok (Yaml.map docA) ∧
      update_openapi_with_security (Yaml.map docA)
        (Yaml.map sampleFragment) = .ok (Yaml.map docB) ∧
      ∃ info2 d0, getDescription [("version", Yaml.str "1.0.0"),
          ("description", Yaml.str "X")] = Except.ok d0 ∧
        lookup docB "info" = some (Yaml.map info2) ∧
        lookup info2 "version" = some (Yaml.str "2.10.0") ∧
        lookup info2 "description" =
          some (Yaml.str (new_version_info ++ (new_version_info ++ d0))) :=
  ⟨_, _, rfl, rfl, @merge_twice_not_idempotent samplePrimary
    (Yaml.map sampleFragment) (Yaml.map sampleFragment) _ _ _
    rfl rfl rfl⟩

/-! ### Claim C9 -/

/-- C9: when the primary has `components.securitySchemes` but the
fragment's `components` lacks `securitySchemes`, the merge raises a
key-lookup failure and the run exits with code 1 — a third structural
requirement on the fragment. -/
theorem fragment_missing_securitySchemes_fails {doc comps sd fc : Dict}
    (hcomps : lookup doc "components" = some (Yaml.map comps))
    (hss : hasKey comps "securitySchemes" = true)
    (hfc : lookup sd "components" = some (Yaml.map fc))
    (hnofss : hasKey fc "securitySchemes" = false) :
    (∃ msg, update_openapi_with_security (Yaml.map doc) (Yaml.map sd) =
      .error msg) ∧
    mainExitCode (Yaml.map doc) (Yaml.map sd) = 1 := by
  have hnotok : ∀ res,
      update_openapi_with_security (Yaml.map doc) (Yaml.map sd) ≠
        .ok res := by
    intro res hres
    obtain ⟨doc0, doc1, comps0, comps1, comps2, comps3, hdoc, hmi, hc0, hm1,
      hm2, hm3, _⟩ := update_ok_inv hres
    have hd : Yaml.map doc = Yaml.map doc0 := asDict_ok_inv hdoc
    injection hd with hd'
    subst hd'
    have h1 : lookup doc1 "components" = some (Yaml.map comps) := by
      rw [mergeInfo_lookup_ne hmi (by decide)]; exact hcomps
    rw [ensureKey_of_hasKey (hasKey_true_of_lookup_some h1), h1] at hc0
    injection hc0 with hc0'
    injection hc0' with hc0''
    subst hc0''
    have hss2 : hasKey comps2 "securitySchemes" = true := by
      rw [hasKey_congr (mergeFragEntries_lookup_ne hm2 (by decide)),
        hasKey_congr (mergeFragEntries_lookup_ne hm1 (by decide))]
      exact hss
    obtain ⟨msg, he⟩ := mergeSecuritySchemes_error hss2 hfc
      (lookup_eq_none_of_hasKey_false hnofss)
    rw [he] at hm3
    exact Except.noConfusion hm3
  obtain ⟨msg, he⟩ := update_error_of_not_ok hnotok
  exact ⟨⟨msg, he⟩, mainExitCode_one_of_update_error he⟩

theorem fragment_missing_securitySchemes_fails_witness :
    (∃ msg, update_openapi_with_security (Yaml.map samplePrimary)
      (Yaml.map fragmentNoSS) = .error msg) ∧
    mainExitCode (Yaml.map samplePrimary) (Yaml.map fragmentNoSS) = 1 :=
  @fragment_missing_securitySchemes_fails samplePrimary
    [("schemas", Yaml.map
       [("SecurityError", Yaml.map [("type", Yaml.str "string")])]),
     ("securitySchemes", Yaml.map
       [("oldAuth", Yaml.map []),
        ("basicAuth", Yaml.map [("type", Yaml.str "old")])])]
    fragmentNoSS
    [("schemas", Yaml.map []), ("responses", Yaml.map [])]
    rfl rfl rfl rfl

end UMIG
